import Mathlib

/-!
Shallow embedding of the WeightTrackPro server core (src/server/auth.ts,
src/server/routes.ts, src/shared/schema.ts).

The database is modelled as in-memory lists of typed rows.  SQL `SELECT ...
WHERE` becomes `List.filter`, `ORDER BY` becomes `List.insertionSort` with the
corresponding key relation, and `const [x] = await db.select()...` (taking the
first returned row) becomes `List.find?` / `List.head?`.  The `decimal(10,2)`
weight column, written as a string and read back through `parseFloat`, is
idealised as an exact rational (`ℚ`); date-only columns are ISO `YYYY-MM-DD`
strings compared lexicographically, exactly as the zero-padded format makes
safe.  JavaScript `Date` values are year/month/day triples in UTC.
-/

namespace WeightTrack

/-- Calendar date triple, the embedding of a JavaScript `Date` (UTC, date part
only, month 1-based). -/
structure Date where
  year : Nat
  month : Nat
  day : Nat
deriving Repr, DecidableEq

/-- Gregorian leap-year rule, as implemented by the JavaScript `Date` runtime
the server relies on. -/
def isLeapYear (y : Nat) : Bool :=
  (y % 4 == 0 && y % 100 != 0) || y % 400 == 0

/-- Length in days of 1-based month `m` of year `y` in the Gregorian calendar
(the month lengths the JavaScript `Date` runtime uses). -/
def daysInMonth (y m : Nat) : Nat :=
  if m == 2 then (if isLeapYear y then 29 else 28)
  else if m == 4 || m == 6 || m == 9 || m == 11 then 30
  else 31

/-- Zero-pad a number to two digits, as in ISO date components. -/
def pad2 (n : Nat) : String :=
  if n < 10 then "0" ++ toString n else toString n

/-- Zero-pad a year to four digits. -/
def pad4 (n : Nat) : String :=
  if n < 10 then "000" ++ toString n
  else if n < 100 then "00" ++ toString n
  else if n < 1000 then "0" ++ toString n
  else toString n

/-- Embedding of `date.toISOString().split('T')[0]` (UTC): the zero-padded
ISO `YYYY-MM-DD` rendering of a date. -/
def toISODateString (d : Date) : String :=
  pad4 d.year ++ "-" ++ pad2 d.month ++ "-" ++ pad2 d.day

/-- Embedding of the JavaScript constructor `new Date(y, monthIndex, day)`
(month index 0-based) for the argument shapes the server uses: `day = 0`
(which JavaScript normalises to the last day of the preceding month) and small
positive `day` that stays inside the month (the server only passes `1`).
A month index of 12 or more rolls over into following years. -/
def jsDate (y monthIndex day : Nat) : Date :=
  let ym := y + monthIndex / 12
  let mn := monthIndex % 12
  if day == 0 then
    if mn == 0 then ⟨ym - 1, 12, 31⟩
    else ⟨ym, mn, daysInMonth ym mn⟩
  else ⟨ym, mn + 1, day⟩

/-- Row of the `users` table (src/shared/schema.ts).  `isAdmin` and `isActive`
are nullable booleans defaulting to false/true; SQL null behaves as false in
every comparison and truthiness test the server performs, so they are
modelled as `Bool`.  `workType` is the nullable enum column. -/
structure User where
  id : Nat
  cpf : String
  password : String
  firstName : String
  lastName : String
  isAdmin : Bool
  workType : Option String
  isActive : Bool
deriving Repr, DecidableEq

/-- Row of the `weight_records` table (src/shared/schema.ts): id, owning
userId, weight (`decimal(10,2)`, idealised as `ℚ`), date-only ISO string,
optional notes, creation timestamp (an ordinal), and the creating admin.
The table has no work-type column. -/
structure WeightRecord where
  id : Nat
  userId : Nat
  weight : ℚ
  date : String
  notes : Option String
  createdAt : Nat
  createdBy : Nat
deriving Repr, DecidableEq

/-- The relational store: the two domain tables plus the serial counter for
weight-record ids. -/
structure DB where
  users : List User
  weightRecords : List WeightRecord
  nextRecordId : Nat
deriving Repr, DecidableEq

/-- Embedding of `DatabaseStorage.getUser`: first row of
`select().from(users).where(eq(users.id, id))`. -/
def getUser (db : DB) (id : Nat) : Option User :=
  db.users.find? (fun u => u.id == id)

/-- Embedding of `DatabaseStorage.getUserByCpf`. -/
def getUserByCpf (db : DB) (cpf : String) : Option User :=
  db.users.find? (fun u => u.cpf == cpf)

/-- Embedding of `DatabaseStorage.validateUser`: first row matching
`and(eq(cpf), eq(password), eq(isActive, true))`, else null. -/
def validateUser (db : DB) (cpf password : String) : Option User :=
  db.users.find? (fun u => u.cpf == cpf && u.password == password && u.isActive)

/-- The `UpdateUser` type of src/shared/schema.ts: `insertUserSchema.partial()`,
every insertable column made optional.  Note that `cpf` is among them — the
insert schema omits only `id`, `createdAt` and `updatedAt`. -/
structure UpdateUser where
  cpf : Option String := none
  password : Option String := none
  firstName : Option String := none
  lastName : Option String := none
  isAdmin : Option Bool := none
  workType : Option (Option String) := none
  isActive : Option Bool := none
deriving Repr, DecidableEq

/-- The effect of drizzle `set({...updates, updatedAt: new Date()})` on one
row: each supplied field overwrites the column, absent fields leave it. -/
def applyUpdate (u : User) (upd : UpdateUser) : User :=
  { u with
    cpf := upd.cpf.getD u.cpf
    password := upd.password.getD u.password
    firstName := upd.firstName.getD u.firstName
    lastName := upd.lastName.getD u.lastName
    isAdmin := upd.isAdmin.getD u.isAdmin
    workType := upd.workType.getD u.workType
    isActive := upd.isActive.getD u.isActive }

/-- Embedding of `DatabaseStorage.updateUser`: update the rows whose id
matches (`where(eq(users.id, id))`).  The PATCH route passes the request body
straight through, with no schema validation. -/
def updateUser (db : DB) (id : Nat) (upd : UpdateUser) : DB :=
  { db with users := db.users.map (fun u => if u.id == id then applyUpdate u upd else u) }

/-- The `ORDER BY date DESC, created_at DESC` key relation on weight records:
`a` precedes `b` when `a`'s date is later, or dates are equal and `a` was
created no earlier. -/
def RecOrder (a b : WeightRecord) : Prop :=
  b.date < a.date ∨ (a.date = b.date ∧ b.createdAt ≤ a.createdAt)

instance : DecidableRel RecOrder := fun a b => by
  unfold RecOrder; infer_instance

instance : IsTotal WeightRecord RecOrder where
  total a b := by
    unfold RecOrder
    rcases lt_trichotomy a.date b.date with h | h | h
    · exact Or.inr (Or.inl h)
    · rcases Nat.le_total b.createdAt a.createdAt with hc | hc
      · exact Or.inl (Or.inr ⟨h, hc⟩)
      · exact Or.inr (Or.inr ⟨h.symm, hc⟩)
    · exact Or.inl (Or.inl h)

instance : IsTrans WeightRecord RecOrder where
  trans a b c hab hbc := by
    unfold RecOrder at *
    rcases hab with h1 | ⟨h1, h1c⟩
    · rcases hbc with h2 | ⟨h2, h2c⟩
      · exact Or.inl (h2.trans h1)
      · exact Or.inl (h2 ▸ h1)
    · rcases hbc with h2 | ⟨h2, h2c⟩
      · exact Or.inl (h1 ▸ h2)
      · exact Or.inr ⟨h1.trans h2, h2c.trans h1c⟩

/-- The `ORDER BY created_at DESC` key relation. -/
def CreatedOrder (a b : WeightRecord) : Prop :=
  b.createdAt ≤ a.createdAt

instance : DecidableRel CreatedOrder := fun a b => by
  unfold CreatedOrder; infer_instance

instance : IsTotal WeightRecord CreatedOrder where
  total a b := Nat.le_total b.createdAt a.createdAt

instance : IsTrans WeightRecord CreatedOrder where
  trans _ _ _ hab hbc := hbc.trans hab

/-- The optional date-range condition of `getUserWeightRecords` and
`getAllWeightRecords`: the inclusive `gte`/`lte` pair on the ISO date string
is pushed onto the WHERE clause only when both bounds are supplied
(`if (startDate && endDate)`); otherwise no range condition applies. -/
def dateRangeCond (startDate endDate : Option Date) (d : String) : Bool :=
  match startDate, endDate with
  | some s, some e => decide (toISODateString s ≤ d) && decide (d ≤ toISODateString e)
  | _, _ => true

/-- Embedding of `DatabaseStorage.getUserWeightRecords`: records of the user,
range-filtered only when both bounds are present, ordered by date descending
then creation time descending. -/
def getUserWeightRecords (db : DB) (userId : Nat)
    (startDate endDate : Option Date) : List WeightRecord :=
  List.insertionSort RecOrder
    (db.weightRecords.filter (fun r => r.userId == userId && dateRangeCond startDate endDate r.date))

/-- Embedding of `DatabaseStorage.getAllWeightRecords`: all records,
range-filtered only when both bounds are present, same ordering. -/
def getAllWeightRecords (db : DB) (startDate endDate : Option Date) : List WeightRecord :=
  List.insertionSort RecOrder
    (db.weightRecords.filter (fun r => dateRangeCond startDate endDate r.date))

example : toISODateString ⟨2024, 2, 29⟩ = "2024-02-29" := by decide
example : jsDate 2024 2 0 = ⟨2024, 2, 29⟩ := by decide
example : jsDate 2024 12 0 = ⟨2024, 12, 31⟩ := by decide

/-- Result shape of `getUserDailyStats`. -/
structure DailyStats where
  totalWeight : ℚ
  recordCount : Nat
  records : List WeightRecord
deriving Repr, DecidableEq

/-- Embedding of `DatabaseStorage.getUserDailyStats`: records matching
`userId` and the ISO rendering of `date`, ordered by creation time
descending; `totalWeight` is the `reduce((sum, r) => sum + parseFloat(r.weight), 0)`
over them. -/
def getUserDailyStats (db : DB) (userId : Nat) (date : Date) : DailyStats :=
  let dateStr := toISODateString date
  let records := List.insertionSort CreatedOrder
    (db.weightRecords.filter (fun r => r.userId == userId && r.date == dateStr))
  { totalWeight := records.foldl (fun s r => s + r.weight) 0
    recordCount := records.length
    records := records }

/-- One grouped per-date entry of the monthly stats. -/
structure DailyStatEntry where
  date : String
  weight : ℚ
  recordCount : Nat
deriving Repr, DecidableEq

/-- One step of the JavaScript `records.reduce` that groups month records by
exact date string: if the accumulator object already has a property for the
record's date, add the record's weight and bump its count in place, otherwise
append a fresh `(date, weight, 1)` entry (object properties keep insertion
order). -/
def groupStep (r : WeightRecord) : List DailyStatEntry → List DailyStatEntry
  | [] => [⟨r.date, r.weight, 1⟩]
  | e :: es =>
    if e.date == r.date then
      { e with weight := e.weight + r.weight, recordCount := e.recordCount + 1 } :: es
    else e :: groupStep r es

/-- The whole grouping reduce, starting from the empty object. -/
def groupDaily (records : List WeightRecord) : List DailyStatEntry :=
  records.foldl (fun acc r => groupStep r acc) []

/-- Property access `acc[date]` on the grouping object: the first (and, as
proved below, only) entry with the given date string. -/
def lookupEntry (l : List DailyStatEntry) (d : String) : Option DailyStatEntry :=
  l.find? (fun e => e.date == d)

/-- Ascending-by-date-string order on grouped entries, the
`sort((a, b) => a.date.localeCompare(b.date))` comparator. -/
def EntryOrder (a b : DailyStatEntry) : Prop :=
  a.date ≤ b.date

instance : DecidableRel EntryOrder := fun a b => by
  unfold EntryOrder; infer_instance

instance : IsTotal DailyStatEntry EntryOrder where
  total a b := le_total a.date b.date

instance : IsTrans DailyStatEntry EntryOrder where
  trans _ _ _ hab hbc := hab.trans hbc

/-- Result shape of `getUserMonthlyStats`. -/
structure MonthlyStats where
  totalWeight : ℚ
  recordCount : Nat
  dailyStats : List DailyStatEntry
deriving Repr, DecidableEq

/-- The month bounds computed by `getUserMonthlyStats` (and, for the current
month, by the dashboard and summary stats): `new Date(year, month - 1, 1)`
and `new Date(year, month, 0)`, `month` 1-based. -/
def monthRange (year month : Nat) : Date × Date :=
  (jsDate year (month - 1) 1, jsDate year month 0)

/-- Embedding of `DatabaseStorage.getUserMonthlyStats`: fetch the user's
records over the month range, group them by exact date string, emit the
grouped entries sorted ascending by date string, along with the ungrouped
total and count. -/
def getUserMonthlyStats (db : DB) (userId : Nat) (year month : Nat) : MonthlyStats :=
  let range := monthRange year month
  let records := getUserWeightRecords db userId (some range.1) (some range.2)
  { totalWeight := records.foldl (fun s r => s + r.weight) 0
    recordCount := records.length
    dailyStats := List.insertionSort EntryOrder (groupDaily records) }

/-- Result shape of `getDashboardStats`. -/
structure DashboardStats where
  totalToday : ℚ
  activeUsers : Nat
  avgDaily : ℚ
  totalMonth : ℚ
deriving Repr, DecidableEq

/-- Embedding of `DatabaseStorage.getDashboardStats`, with the wall clock
passed in as `today`: today's org-wide total, the count of active users, the
org-wide month total over the current month's range, and
`avgDaily = totalMonth / monthEnd.getDate()`. -/
def getDashboardStats (db : DB) (today : Date) : DashboardStats :=
  let todayStr := toISODateString today
  let todayRecords := db.weightRecords.filter (fun r => r.date == todayStr)
  let totalToday := todayRecords.foldl (fun s r => s + r.weight) 0
  let activeUsers := (db.users.filter (fun u => u.isActive)).length
  let range := monthRange today.year today.month
  let monthRecords := getAllWeightRecords db (some range.1) (some range.2)
  let totalMonth := monthRecords.foldl (fun s r => s + r.weight) 0
  let daysOfMonth := range.2.day
  { totalToday := totalToday
    activeUsers := activeUsers
    avgDaily := totalMonth / (daysOfMonth : ℚ)
    totalMonth := totalMonth }

/-- Result shape of `getUserSummaryStats`. -/
structure SummaryStats where
  totalToday : ℚ
  totalMonth : ℚ
  avgDaily : ℚ
deriving Repr, DecidableEq

/-- Embedding of `DatabaseStorage.getUserSummaryStats`, with the wall clock
passed in as `today`: the same shape as the dashboard stats restricted to one
user's records. -/
def getUserSummaryStats (db : DB) (userId : Nat) (today : Date) : SummaryStats :=
  let todayStr := toISODateString today
  let todayRecords := db.weightRecords.filter
    (fun r => r.userId == userId && r.date == todayStr)
  let totalToday := todayRecords.foldl (fun s r => s + r.weight) 0
  let range := monthRange today.year today.month
  let monthRecords := getUserWeightRecords db userId (some range.1) (some range.2)
  let totalMonth := monthRecords.foldl (fun s r => s + r.weight) 0
  let daysOfMonth := range.2.day
  { totalToday := totalToday
    totalMonth := totalMonth
    avgDaily := totalMonth / (daysOfMonth : ℚ) }

/-- Request body accepted by `POST /api/weight-records` after the
presence check on `userId`, `weight` and `date`. -/
structure CreateRecordBody where
  userId : Nat
  weight : ℚ
  date : String
  notes : Option String
deriving Repr, DecidableEq

/-- The `InsertWeightRecord` type of src/shared/schema.ts:
`createInsertSchema(weightRecords).omit(id, createdAt)` with `weight` coerced
to a positive number.  The `weight_records` table has no work-type column, so
the `workType: user.workType` property the route spreads into
`insertWeightRecordSchema.parse` is an unknown key that zod strips: the
parsed insert data carries no work type. -/
structure InsertWeightRecord where
  userId : Nat
  weight : ℚ
  date : String
  notes : Option String
  createdBy : Nat
deriving Repr, DecidableEq

/-- Embedding of `DatabaseStorage.createWeightRecord`: insert a row with the
next serial id and the current creation timestamp, returning it. -/
def createWeightRecord (db : DB) (rec : InsertWeightRecord) (now : Nat) : DB × WeightRecord :=
  let r : WeightRecord :=
    { id := db.nextRecordId
      userId := rec.userId
      weight := rec.weight
      date := rec.date
      notes := rec.notes
      createdAt := now
      createdBy := rec.createdBy }
  ({ db with weightRecords := db.weightRecords ++ [r], nextRecordId := db.nextRecordId + 1 }, r)

/-- Embedding of the `POST /api/weight-records` handler body after
`isAuthenticated` and `isAdmin`: reject if the target user does not exist or
the weight is not positive (zod `.positive()`); otherwise build the insert
data with `createdBy` set to the session user — the `workType` property taken
from the target user's profile is stripped by the schema because the table
has no such column — and insert it. -/
def createWeightRecordHandler (db : DB) (sessionUserId : Nat)
    (body : CreateRecordBody) (now : Nat) : Option (DB × WeightRecord) :=
  match getUser db body.userId with
  | none => none
  | some _user =>
    if 0 < body.weight then
      let data : InsertWeightRecord :=
        { userId := body.userId
          weight := body.weight
          date := body.date
          notes := body.notes
          createdBy := sessionUserId }
      some (createWeightRecord db data now)
    else none

/-- Outcome of a guarded route handler: either the payload or the 403
`Access denied` rejection issued before any record data is fetched. -/
inductive ApiResult (α : Type) where
  | ok : α → ApiResult α
  | forbidden : ApiResult α
deriving Repr, DecidableEq

/-- The self-or-admin guard shared by the four per-user routes of
src/server/routes.ts: look up the session's user row, then allow unless the
target id differs from the session id and the looked-up row's admin flag is
not true (`if (parseInt(userId) !== currentUserId && !currentUser?.isAdmin)`). -/
def selfOrAdminAllowed (db : DB) (sessionUserId targetUserId : Nat) : Bool :=
  let currentUser := getUser db sessionUserId
  !(targetUserId != sessionUserId && !((currentUser.map (fun u => u.isAdmin)).getD false))

/-- Embedding of the `GET /api/weight-records/user/:userId` handler body
after `isAuthenticated`. -/
def listUserRecordsHandler (db : DB) (sessionUserId targetUserId : Nat)
    (startDate endDate : Option Date) : ApiResult (List WeightRecord) :=
  if selfOrAdminAllowed db sessionUserId targetUserId then
    .ok (getUserWeightRecords db targetUserId startDate endDate)
  else .forbidden

/-- Embedding of the `GET /api/weight-records/daily/:userId/:date` handler
body after `isAuthenticated`. -/
def dailyStatsHandler (db : DB) (sessionUserId targetUserId : Nat)
    (date : Date) : ApiResult DailyStats :=
  if selfOrAdminAllowed db sessionUserId targetUserId then
    .ok (getUserDailyStats db targetUserId date)
  else .forbidden

/-- Embedding of the `GET /api/weight-records/monthly/:userId/:year/:month`
handler body after `isAuthenticated`. -/
def monthlyStatsHandler (db : DB) (sessionUserId targetUserId : Nat)
    (year month : Nat) : ApiResult MonthlyStats :=
  if selfOrAdminAllowed db sessionUserId targetUserId then
    .ok (getUserMonthlyStats db targetUserId year month)
  else .forbidden

/-- Embedding of the `GET /api/users/:userId/summary` handler body after
`isAuthenticated`, with the wall clock passed in as `today`. -/
def userSummaryHandler (db : DB) (sessionUserId targetUserId : Nat)
    (today : Date) : ApiResult SummaryStats :=
  if selfOrAdminAllowed db sessionUserId targetUserId then
    .ok (getUserSummaryStats db targetUserId today)
  else .forbidden

/-- Concrete admin used by the concrete instances below. -/
def adminBea : User :=
  { id := 1, cpf := "11111111111", password := "pw1", firstName := "Bea",
    lastName := "Souza", isAdmin := true, workType := none, isActive := true }

/-- Concrete non-admin worker with work type `filetagem`. -/
def workerAna : User :=
  { id := 2, cpf := "22222222233", password := "pw2", firstName := "Ana",
    lastName := "Silva", isAdmin := false, workType := some "filetagem", isActive := true }

/-- Concrete store with one admin, one worker and no weight records. -/
def fixtureDB : DB :=
  { users := [adminBea, workerAna], weightRecords := [], nextRecordId := 1 }

/-- Concrete user update that supplies a new national identifier. -/
def cpfUpdate : UpdateUser := { cpf := some "99999999999" }

/-- The weight record produced by the concrete round trip below. -/
def rec6 : WeightRecord :=
  { id := 1, userId := 2, weight := 12.5, date := "2024-03-15", notes := none,
    createdAt := 100, createdBy := 1 }

/-- The store after the concrete round trip below. -/
def db6after : DB :=
  { users := [adminBea, workerAna], weightRecords := [rec6], nextRecordId := 2 }

/-! ## Helper lemmas -/

theorem foldl_add_weight (l : List WeightRecord) (a : ℚ) :
    l.foldl (fun s r => s + r.weight) a = a + (l.map (fun r => r.weight)).sum := by
  induction l generalizing a with
  | nil => simp
  | cons r t ih => simp [List.foldl_cons, ih, add_assoc]

theorem monthRange_eq (y m : Nat) (h1 : 1 ≤ m) (h2 : m ≤ 12) :
    monthRange y m = (⟨y, m, 1⟩, ⟨y, m, daysInMonth y m⟩) := by
  interval_cases m <;> simp [monthRange, jsDate, daysInMonth]

theorem daysInMonth_cases (y m : Nat) :
    daysInMonth y m = 28 ∨ daysInMonth y m = 29 ∨ daysInMonth y m = 30 ∨
      daysInMonth y m = 31 := by
  unfold daysInMonth
  by_cases h2 : m == 2
  · cases hL : isLeapYear y <;> simp [h2, hL]
  · by_cases h30 : (m == 4 || m == 6 || m == 9 || m == 11) <;> simp [h2, h30]

/-! ## Claim theorems -/

/-- C8. `validateUser` returns a user row exactly when some stored user has
that identifier, that password and an active flag set to true; in every other
case (including a deactivated user's correct credentials) it returns a
null/absent result. -/
theorem c8_validateUser_exact_match (db : DB) (cpf password : String) :
    (∀ u, validateUser db cpf password = some u →
      u ∈ db.users ∧ u.cpf = cpf ∧ u.password = password ∧ u.isActive = true) ∧
    (validateUser db cpf password = none ↔
      ∀ u ∈ db.users, ¬(u.cpf = cpf ∧ u.password = password ∧ u.isActive = true)) := by
  constructor
  · intro u h
    have hm := List.mem_of_find?_eq_some h
    have hp := List.find?_some h
    simp only [Bool.and_eq_true, beq_iff_eq] at hp
    exact ⟨hm, hp.1.1, hp.1.2, hp.2⟩
  · unfold validateUser
    rw [List.find?_eq_none]
    constructor
    · intro h u hu hc
      have := h u hu
      simp only [Bool.and_eq_true, beq_iff_eq] at this
      exact this ⟨⟨hc.1, hc.2.1⟩, hc.2.2⟩
    · intro h u hu
      have := h u hu
      simp only [Bool.and_eq_true, beq_iff_eq]
      intro hc
      exact this ⟨hc.1.1, hc.1.2, hc.2⟩

/-- C10. The self-or-admin guard grants a caller access to their own records
and stats for every store whatsoever — in particular for stores where the
caller's user row is absent or deactivated — because the id comparison
succeeds without the looked-up row being consulted. -/
theorem c10_self_access_ignores_caller_row (db : DB) (uid : Nat) :
    selfOrAdminAllowed db uid uid = true ∧
    (∀ sd ed, listUserRecordsHandler db uid uid sd ed =
      .ok (getUserWeightRecords db uid sd ed)) ∧
    (∀ d, dailyStatsHandler db uid uid d = .ok (getUserDailyStats db uid d)) ∧
    (∀ y m, monthlyStatsHandler db uid uid y m = .ok (getUserMonthlyStats db uid y m)) ∧
    (∀ today, userSummaryHandler db uid uid today = .ok (getUserSummaryStats db uid today)) := by
  have hg : selfOrAdminAllowed db uid uid = true := by
    simp [selfOrAdminAllowed]
  refine ⟨hg, ?_, ?_, ?_, ?_⟩
  · intro sd ed; simp [listUserRecordsHandler, hg]
  · intro d; simp [dailyStatsHandler, hg]
  · intro y m; simp [monthlyStatsHandler, hg]
  · intro today; simp [userSummaryHandler, hg]

/-- C1. With a resolved caller identity, each of the four per-user routes
(list records, daily stats, monthly stats, user summary) allows access
exactly when the caller's id equals the target id or the caller's admin flag
is true, and otherwise rejects with the Forbidden result before returning any
record data. -/
theorem c1_stats_access_policy (db : DB) (s t : Nat) (caller : User)
    (h : getUser db s = some caller) :
    (selfOrAdminAllowed db s t = true ↔ (caller.id = t ∨ caller.isAdmin = true)) ∧
    (∀ sd ed, listUserRecordsHandler db s t sd ed =
      if caller.id = t ∨ caller.isAdmin = true then
        .ok (getUserWeightRecords db t sd ed) else .forbidden) ∧
    (∀ d, dailyStatsHandler db s t d =
      if caller.id = t ∨ caller.isAdmin = true then
        .ok (getUserDailyStats db t d) else .forbidden) ∧
    (∀ y m, monthlyStatsHandler db s t y m =
      if caller.id = t ∨ caller.isAdmin = true then
        .ok (getUserMonthlyStats db t y m) else .forbidden) ∧
    (∀ today, userSummaryHandler db s t today =
      if caller.id = t ∨ caller.isAdmin = true then
        .ok (getUserSummaryStats db t today) else .forbidden) := by
  have hid : caller.id = s := by
    have := List.find?_some h
    simpa [beq_iff_eq] using this
  have hg : selfOrAdminAllowed db s t = true ↔ (caller.id = t ∨ caller.isAdmin = true) := by
    subst hid
    cases hA : caller.isAdmin <;> by_cases ht : t = caller.id
    · subst ht; simp [selfOrAdminAllowed, h, hA]
    · have ht2 : ¬caller.id = t := fun hh => ht hh.symm
      simp [selfOrAdminAllowed, h, hA, ht, ht2]
    · subst ht; simp [selfOrAdminAllowed, h, hA]
    · have ht2 : ¬caller.id = t := fun hh => ht hh.symm
      simp [selfOrAdminAllowed, h, hA, ht, ht2]
  have hsplit : ∀ {α : Type} (x : α),
      (if selfOrAdminAllowed db s t then ApiResult.ok x else ApiResult.forbidden)
        = if caller.id = t ∨ caller.isAdmin = true then ApiResult.ok x
          else ApiResult.forbidden := by
    intro α x
    by_cases hc : caller.id = t ∨ caller.isAdmin = true
    · simp [hg.mpr hc, hc]
    · have hf : selfOrAdminAllowed db s t = false := by
        rcases Bool.eq_false_or_eq_true (selfOrAdminAllowed db s t) with ht | hf
        · exact absurd (hg.mp ht) hc
        · exact hf
      simp [hf, hc]
  exact ⟨hg, fun sd ed => hsplit _, fun d => hsplit _, fun y m => hsplit _,
    fun today => hsplit _⟩

/-- C1 witness: in the concrete store, the non-admin worker (id 2) asking for
user 3's records is rejected with Forbidden. -/
theorem c1_stats_access_policy_witness :
    listUserRecordsHandler fixtureDB 2 3 none none = .forbidden := by
  have h := (c1_stats_access_policy fixtureDB 2 3 workerAna (by decide)).2.1 none none
  rw [h]
  decide

/-- C4. In both the dashboard stats and the per-user summary stats, `avgDaily`
is exactly `totalMonth` divided by the calendar length of the current month —
28, 29, 30 or 31 days, derived from the month-end date (`monthEnd.getDate()`)
and independent of how many days of the month have elapsed — including
February of leap years. -/
theorem c4_avgDaily_full_month (db : DB) (uid : Nat) (today : Date)
    (h1 : 1 ≤ today.month) (h2 : today.month ≤ 12) :
    ((getDashboardStats db today).avgDaily =
      (getDashboardStats db today).totalMonth /
        (daysInMonth today.year today.month : ℚ)) ∧
    ((getUserSummaryStats db uid today).avgDaily =
      (getUserSummaryStats db uid today).totalMonth /
        (daysInMonth today.year today.month : ℚ)) ∧
    (daysInMonth today.year today.month = 28 ∨ daysInMonth today.year today.month = 29 ∨
      daysInMonth today.year today.month = 30 ∨ daysInMonth today.year today.month = 31) ∧
    (isLeapYear today.year = true → daysInMonth today.year 2 = 29) ∧
    (isLeapYear today.year = false → daysInMonth today.year 2 = 28) := by
  have hr := monthRange_eq today.year today.month h1 h2
  refine ⟨?_, ?_, daysInMonth_cases today.year today.month, ?_, ?_⟩
  · simp only [getDashboardStats, hr]
  · simp only [getUserSummaryStats, hr]
  · intro hL; simp [daysInMonth, hL]
  · intro hL; simp [daysInMonth, hL]

/-- C4 witness: for February 2024 (a leap year) the dashboard average divides
by the 29-day month length. -/
theorem c4_avgDaily_full_month_witness :
    (getDashboardStats fixtureDB ⟨2024, 2, 10⟩).avgDaily =
      (getDashboardStats fixtureDB ⟨2024, 2, 10⟩).totalMonth /
        (daysInMonth 2024 2 : ℚ) :=
  (c4_avgDaily_full_month fixtureDB 2 ⟨2024, 2, 10⟩ (by decide) (by decide)).1

/-- C5. For every 1-based month, the monthly-stats range runs from the first
calendar day of the month to the true last calendar day — obtained as day 0
of the following month — and the fetch filters the user's records inclusively
between the ISO renderings of those two bounds. -/
theorem c5_month_bounds (y m : Nat) (h1 : 1 ≤ m) (h2 : m ≤ 12) :
    monthRange y m = (⟨y, m, 1⟩, ⟨y, m, daysInMonth y m⟩) ∧
    (∀ db uid, getUserMonthlyStats db uid y m =
      let records :=
        getUserWeightRecords db uid (some ⟨y, m, 1⟩) (some ⟨y, m, daysInMonth y m⟩)
      { totalWeight := records.foldl (fun s r => s + r.weight) 0
        recordCount := records.length
        dailyStats := List.insertionSort EntryOrder (groupDaily records) }) ∧
    (∀ d : String,
      dateRangeCond (some ⟨y, m, 1⟩) (some ⟨y, m, daysInMonth y m⟩) d =
        (decide (toISODateString ⟨y, m, 1⟩ ≤ d) &&
          decide (d ≤ toISODateString ⟨y, m, daysInMonth y m⟩))) := by
  have hr := monthRange_eq y m h1 h2
  refine ⟨hr, ?_, fun d => rfl⟩
  intro db uid
  simp only [getUserMonthlyStats, hr]

/-- C5 witness: for February 2024 the range ends on February 29. -/
theorem c5_month_bounds_witness :
    monthRange 2024 2 = (⟨2024, 2, 1⟩, ⟨2024, 2, 29⟩) := by
  have h := (c5_month_bounds 2024 2 (by decide) (by decide)).1
  rw [h]
  decide

/-- C7. The date-range filter of both record-listing queries applies only
when both bounds are supplied: a call with exactly one bound equals the
unbounded all-time call; with both bounds the filter is the inclusive
comparison on ISO date strings; and every result is ordered by date
descending then creation time descending, as a permutation of the matching
row set. -/
theorem c7_range_filter_needs_both_bounds (db : DB) (uid : Nat) (s e : Date) :
    (getUserWeightRecords db uid (some s) none = getUserWeightRecords db uid none none) ∧
    (getUserWeightRecords db uid none (some e) = getUserWeightRecords db uid none none) ∧
    (getAllWeightRecords db (some s) none = getAllWeightRecords db none none) ∧
    (getAllWeightRecords db none (some e) = getAllWeightRecords db none none) ∧
    (∀ d : String, dateRangeCond (some s) (some e) d = true ↔
      (toISODateString s ≤ d ∧ d ≤ toISODateString e)) ∧
    (∀ sd ed, List.Sorted RecOrder (getUserWeightRecords db uid sd ed) ∧
      List.Sorted RecOrder (getAllWeightRecords db sd ed)) ∧
    (∀ sd ed, (getUserWeightRecords db uid sd ed).Perm
        (db.weightRecords.filter (fun r => r.userId == uid && dateRangeCond sd ed r.date)) ∧
      (getAllWeightRecords db sd ed).Perm
        (db.weightRecords.filter (fun r => dateRangeCond sd ed r.date))) := by
  refine ⟨rfl, rfl, rfl, rfl, ?_, ?_, ?_⟩
  · intro d
    simp [dateRangeCond]
  · intro sd ed
    exact ⟨List.sorted_insertionSort RecOrder _, List.sorted_insertionSort RecOrder _⟩
  · intro sd ed
    exact ⟨List.perm_insertionSort RecOrder _, List.perm_insertionSort RecOrder _⟩

/-- C9 counterexample: `updateUser` applied with an update that supplies a
`cpf` field changes the stored national identifier, so the identifier is not
excluded from partial updates. -/
theorem c9_identifier_mutable_counterexample :
    (getUser (updateUser fixtureDB 1 cpfUpdate) 1).map (fun u => u.cpf)
        = some "99999999999" ∧
    (getUser fixtureDB 1).map (fun u => u.cpf) = some "11111111111" := by
  decide

/-- Helper: a single `updateUser` whose update omits `cpf` preserves every
row's id/identifier pair. -/
theorem updateUser_cpf_frame (db : DB) (i : Nat) (upd : UpdateUser)
    (hc : upd.cpf = none) :
    (updateUser db i upd).users.map (fun u => (u.id, u.cpf))
      = db.users.map (fun u => (u.id, u.cpf)) := by
  simp only [updateUser, List.map_map]
  apply List.map_congr_left
  intro u _
  by_cases hu : u.id = i
  · simp [hu, applyUpdate, hc]
  · simp [hu]

/-- C9, amended: a user's numeric id is unchanged by every update, and the
national identifier is unchanged exactly as long as no update in the sequence
supplies a `cpf` field — the update type does not exclude the identifier, so
an update carrying `cpf` rewrites it (see the counterexample). -/
theorem c9_updates_preserve_id_and_cpf_when_omitted (db : DB)
    (ops : List (Nat × UpdateUser)) (h : ∀ op ∈ ops, op.2.cpf = none) :
    ((ops.foldl (fun d op => updateUser d op.1 op.2) db).users.map (fun u => (u.id, u.cpf))
        = db.users.map (fun u => (u.id, u.cpf))) ∧
    (∀ (d : DB) (i : Nat) (upd : UpdateUser),
      (updateUser d i upd).users.map (fun u => u.id) = d.users.map (fun u => u.id)) := by
  constructor
  · induction ops generalizing db with
    | nil => rfl
    | cons op rest ih =>
      have h1 : op.2.cpf = none := h op (List.mem_cons_self op rest)
      have h2 : ∀ o ∈ rest, o.2.cpf = none := fun o ho => h o (List.mem_cons_of_mem _ ho)
      simp only [List.foldl_cons]
      rw [ih (updateUser db op.1 op.2) h2, updateUser_cpf_frame db op.1 op.2 h1]
  · intro d i upd
    simp only [updateUser, List.map_map]
    apply List.map_congr_left
    intro u _
    by_cases hu : u.id = i
    · simp [hu, applyUpdate]
    · simp [hu]

/-- C9 amended witness: a concrete password-only update leaves every id and
identifier in place. -/
theorem c9_updates_preserve_id_and_cpf_witness :
    ([((1 : Nat), ({ password := some "x" } : UpdateUser))].foldl
        (fun d op => updateUser d op.1 op.2) fixtureDB).users.map (fun u => (u.id, u.cpf))
      = fixtureDB.users.map (fun u => (u.id, u.cpf)) :=
  (c9_updates_preserve_id_and_cpf_when_omitted fixtureDB
    [(1, { password := some "x" })] (by decide)).1

/-- C6 evaluation. Creating a weight record with weight 12.5 and date
2024-03-15 for the worker whose profile work type is `filetagem`, then
querying that user's records for that date, returns exactly one record with
weight 12.5 — but the record is `rec6`, a row of the `weight_records` table,
which carries no work-type field at all: the `workType` the route copies from
the profile is stripped by the insert schema because the table has no such
column.  Only the user's profile still shows `filetagem`. -/
theorem c6_roundtrip_drops_workType :
    createWeightRecordHandler fixtureDB 1
        { userId := 2, weight := 12.5, date := "2024-03-15", notes := none } 100
      = some (db6after, rec6) ∧
    (getUserDailyStats db6after 2 ⟨2024, 3, 15⟩).records = [rec6] ∧
    rec6.weight = 12.5 ∧
    (getUser fixtureDB 2).map (fun u => u.workType) = some (some "filetagem") := by
  have hpos : (0 : ℚ) < 12.5 := by norm_num
  refine ⟨?_, rfl, rfl, rfl⟩
  show (if (0 : ℚ) < 12.5 then
      some (createWeightRecord fixtureDB
        { userId := 2, weight := 12.5, date := "2024-03-15", notes := none,
          createdBy := 1 } 100)
    else none) = some (db6after, rec6)
  rw [if_pos hpos]
  rfl

/-- C2. For every store, user and date, `getUserDailyStats` returns the total
weight and count of exactly the records matching that user and date, with the
matching records ordered by creation time descending, and in particular
returns zero totals and an empty list (never an error — the function is
total) when nothing matches. -/
theorem c2_daily_stats_sum_and_count (db : DB) (uid : Nat) (date : Date) :
    (getUserDailyStats db uid date).totalWeight =
      ((db.weightRecords.filter
          (fun r => r.userId == uid && r.date == toISODateString date)).map
        (fun r => r.weight)).sum ∧
    (getUserDailyStats db uid date).recordCount =
      (db.weightRecords.filter
        (fun r => r.userId == uid && r.date == toISODateString date)).length ∧
    (getUserDailyStats db uid date).records.Perm
      (db.weightRecords.filter
        (fun r => r.userId == uid && r.date == toISODateString date)) ∧
    List.Sorted CreatedOrder (getUserDailyStats db uid date).records ∧
    (db.weightRecords.filter
        (fun r => r.userId == uid && r.date == toISODateString date) = [] →
      getUserDailyStats db uid date = ⟨0, 0, []⟩) := by
  have hperm :
      (List.insertionSort CreatedOrder
        (db.weightRecords.filter
          (fun r => r.userId == uid && r.date == toISODateString date))).Perm
      (db.weightRecords.filter
        (fun r => r.userId == uid && r.date == toISODateString date)) :=
    List.perm_insertionSort CreatedOrder _
  refine ⟨?_, ?_, hperm, List.sorted_insertionSort CreatedOrder _, ?_⟩
  · show (List.insertionSort CreatedOrder _).foldl (fun s r => s + r.weight) 0 = _
    rw [foldl_add_weight, zero_add]
    exact List.Perm.sum_eq (hperm.map (fun r => r.weight))
  · exact hperm.length_eq
  · intro h
    show getUserDailyStats db uid date = ⟨0, 0, []⟩
    unfold getUserDailyStats
    dsimp only
    rw [h]
    rfl

/-- Helper: one grouping step adds the record's weight to the total of the
grouped weights. -/
theorem groupStep_weight_sum (r : WeightRecord) (acc : List DailyStatEntry) :
    ((groupStep r acc).map (fun e => e.weight)).sum
      = (acc.map (fun e => e.weight)).sum + r.weight := by
  induction acc with
  | nil => simp [groupStep]
  | cons e es ih =>
    by_cases h : e.date == r.date
    · simp only [groupStep, if_pos h, List.map_cons, List.sum_cons]
      ring
    · simp only [groupStep, if_neg h, List.map_cons, List.sum_cons, ih]
      ring

/-- Helper: the whole grouping fold adds the records' weights to the total of
the grouped weights. -/
theorem foldl_group_weight_sum (rs : List WeightRecord) :
    ∀ acc : List DailyStatEntry,
      ((rs.foldl (fun a r => groupStep r a) acc).map (fun e => e.weight)).sum
        = (acc.map (fun e => e.weight)).sum + (rs.map (fun r => r.weight)).sum := by
  induction rs with
  | nil => intro acc; simp
  | cons r rest ih =>
    intro acc
    simp only [List.foldl_cons, List.map_cons, List.sum_cons]
    rw [ih, groupStep_weight_sum]
    ring

/-- Helper: a grouping step leaves lookups at other dates unchanged. -/
theorem groupStep_lookup_ne (r : WeightRecord) (acc : List DailyStatEntry)
    (d : String) (h : r.date ≠ d) :
    lookupEntry (groupStep r acc) d = lookupEntry acc d := by
  induction acc with
  | nil =>
    have : (r.date == d) = false := beq_eq_false_iff_ne.mpr h
    simp [groupStep, lookupEntry, this]
  | cons e es ih =>
    by_cases he : e.date == r.date
    · have he' : e.date = r.date := by simpa using he
      have hed : (e.date == d) = false := beq_eq_false_iff_ne.mpr (he' ▸ h)
      simp [groupStep, he, lookupEntry, List.find?, hed]
    · by_cases hed : e.date == d
      · simp [groupStep, he, lookupEntry, List.find?, hed]
      · simp only [groupStep, he, Bool.false_eq_true, if_neg]
        simp only [lookupEntry, List.find?, hed] at ih ⊢
        exact ih

/-- Helper: a grouping step for a date not yet present appends a fresh
entry for it. -/
theorem groupStep_lookup_eq_none (r : WeightRecord) (acc : List DailyStatEntry)
    (h : lookupEntry acc r.date = none) :
    lookupEntry (groupStep r acc) r.date = some ⟨r.date, r.weight, 1⟩ := by
  induction acc with
  | nil => simp [groupStep, lookupEntry, List.find?]
  | cons e es ih =>
    simp only [lookupEntry, List.find?] at h
    rcases hed : e.date == r.date with _ | _
    · rw [hed] at h
      simp only [groupStep, hed, Bool.false_eq_true, if_neg]
      simp only [lookupEntry, List.find?, hed]
      exact ih h
    · rw [hed] at h
      simp at h

/-- Helper: a grouping step for a date already present bumps that entry's
running weight and count in place. -/
theorem groupStep_lookup_eq_some (r : WeightRecord) (acc : List DailyStatEntry)
    (e0 : DailyStatEntry) (h : lookupEntry acc r.date = some e0) :
    lookupEntry (groupStep r acc) r.date
      = some ⟨e0.date, e0.weight + r.weight, e0.recordCount + 1⟩ := by
  induction acc with
  | nil => simp [lookupEntry, List.find?] at h
  | cons e es ih =>
    by_cases he : e.date == r.date
    · have he0 : e0 = e := by
        simp only [lookupEntry, List.find?, he] at h
        exact (Option.some_inj.mp h).symm
      subst he0
      have he' : e0.date = r.date := by simpa using he
      simp [groupStep, he, lookupEntry, List.find?, he']
    · simp only [lookupEntry, List.find?, he] at h
      simp only [groupStep, he, Bool.false_eq_true, if_neg]
      simp only [lookupEntry, List.find?, he]
      exact ih h

/-- Helper: folding the grouping step over records, an entry already present
for date `d` accumulates exactly the weights and count of the records dated
`d`. -/
theorem foldl_group_lookup_some (rs : List WeightRecord) (d : String) :
    ∀ (acc : List DailyStatEntry) (e0 : DailyStatEntry), lookupEntry acc d = some e0 →
      lookupEntry (rs.foldl (fun a r => groupStep r a) acc) d
        = some ⟨e0.date,
            e0.weight + ((rs.filter (fun r => r.date == d)).map (fun r => r.weight)).sum,
            e0.recordCount + (rs.filter (fun r => r.date == d)).length⟩ := by
  induction rs with
  | nil =>
    intro acc e0 h
    simpa using h
  | cons r rest ih =>
    intro acc e0 h
    simp only [List.foldl_cons]
    by_cases hd : r.date == d
    · have hd' : r.date = d := by simpa using hd
      have h2 := groupStep_lookup_eq_some r acc e0 (by rw [hd']; exact h)
      have h3 := ih (groupStep r acc) _ (by rw [← hd']; exact h2)
      rw [h3]
      simp only [List.filter_cons, hd, if_pos, List.map_cons, List.sum_cons,
        List.length_cons]
      refine congrArg some ?_
      refine congrArg₂ (fun w c => DailyStatEntry.mk e0.date w c) ?_ ?_
      · ring
      · omega
    · have hne : r.date ≠ d := by simpa using hd
      have h2 : lookupEntry (groupStep r acc) d = some e0 := by
        rw [groupStep_lookup_ne r acc d hne]; exact h
      have h3 := ih (groupStep r acc) e0 h2
      rw [h3]
      simp [List.filter_cons, hd]

/-- Helper: folding the grouping step over records, a date `d` with no prior
entry ends with no entry when no record is dated `d`, and otherwise with the
entry holding exactly the sum and count of the records dated `d`. -/
theorem foldl_group_lookup_none (rs : List WeightRecord) (d : String) :
    ∀ acc : List DailyStatEntry, lookupEntry acc d = none →
      lookupEntry (rs.foldl (fun a r => groupStep r a) acc) d
        = if (rs.filter (fun r => r.date == d)).length = 0 then none
          else some ⟨d, ((rs.filter (fun r => r.date == d)).map (fun r => r.weight)).sum,
                     (rs.filter (fun r => r.date == d)).length⟩ := by
  induction rs with
  | nil =>
    intro acc h
    simpa using h
  | cons r rest ih =>
    intro acc h
    simp only [List.foldl_cons]
    by_cases hd : r.date == d
    · have hd' : r.date = d := by simpa using hd
      have h2 : lookupEntry (groupStep r acc) d = some ⟨r.date, r.weight, 1⟩ := by
        rw [← hd']
        exact groupStep_lookup_eq_none r acc (by rw [hd']; exact h)
      have h3 := foldl_group_lookup_some rest d (groupStep r acc) ⟨r.date, r.weight, 1⟩ h2
      rw [h3]
      simp only [List.filter_cons, hd, if_pos, List.map_cons, List.sum_cons,
        List.length_cons, Nat.succ_ne_zero, if_neg, Nat.add_eq_zero]
      rw [if_neg not_false, hd', Nat.add_comm 1]
    · have hne : r.date ≠ d := by simpa using hd
      have h2 : lookupEntry (groupStep r acc) d = none := by
        rw [groupStep_lookup_ne r acc d hne]; exact h
      have h3 := ih (groupStep r acc) h2
      rw [h3]
      simp [List.filter_cons, hd]

/-- Helper: a grouping step only ever introduces the stepped record's date. -/
theorem mem_dates_groupStep (r : WeightRecord) (acc : List DailyStatEntry)
    (d : String) (h : d ∈ (groupStep r acc).map (fun e => e.date)) :
    d ∈ acc.map (fun e => e.date) ∨ d = r.date := by
  induction acc with
  | nil =>
    right
    simpa [groupStep] using h
  | cons e es ih =>
    by_cases he : e.date == r.date
    · simp only [groupStep, if_pos he, List.map_cons, List.mem_cons] at h ⊢
      exact Or.inl h
    · simp only [groupStep, if_neg he, List.map_cons, List.mem_cons] at h ⊢
      rcases h with h | h
      · exact Or.inl (Or.inl h)
      · rcases ih h with h1 | h1
        · exact Or.inl (Or.inr h1)
        · exact Or.inr h1

/-- Helper: grouping steps keep the entry dates duplicate-free. -/
theorem nodup_dates_groupStep (r : WeightRecord) (acc : List DailyStatEntry)
    (h : (acc.map (fun e => e.date)).Nodup) :
    ((groupStep r acc).map (fun e => e.date)).Nodup := by
  induction acc with
  | nil => simp [groupStep]
  | cons e es ih =>
    rw [List.map_cons, List.nodup_cons] at h
    by_cases he : e.date == r.date
    · simp only [groupStep, if_pos he, List.map_cons, List.nodup_cons]
      exact ⟨h.1, h.2⟩
    · simp only [groupStep, if_neg he, List.map_cons, List.nodup_cons]
      refine ⟨?_, ih h.2⟩
      intro hmem
      rcases mem_dates_groupStep r es e.date hmem with h1 | h1
      · exact h.1 h1
      · exact (by simpa using he : e.date ≠ r.date) h1

/-- Helper: the grouped entries of any record list have duplicate-free
dates. -/
theorem nodup_dates_groupDaily (rs : List WeightRecord) :
    ((groupDaily rs).map (fun e => e.date)).Nodup := by
  suffices hgen : ∀ acc : List DailyStatEntry, (acc.map (fun e => e.date)).Nodup →
      ((rs.foldl (fun a r => groupStep r a) acc).map (fun e => e.date)).Nodup by
    exact hgen [] (by simp)
  induction rs with
  | nil => intro acc h; simpa using h
  | cons r rest ih =>
    intro acc h
    exact ih (groupStep r acc) (nodup_dates_groupStep r acc h)

/-- Helper: in a list of entries with duplicate-free dates, looking up a
member's date finds that member. -/
theorem lookup_of_mem_nodup (l : List DailyStatEntry) (e : DailyStatEntry)
    (hn : (l.map (fun x => x.date)).Nodup) (hm : e ∈ l) :
    lookupEntry l e.date = some e := by
  induction l with
  | nil => simp at hm
  | cons f fs ih =>
    rw [List.map_cons, List.nodup_cons] at hn
    rcases List.mem_cons.mp hm with rfl | hm2
    · simp [lookupEntry, List.find?]
    · have hne : (f.date == e.date) = false := by
        refine beq_eq_false_iff_ne.mpr ?_
        intro hEq
        exact hn.1 (hEq ▸ List.mem_map_of_mem (fun x => x.date) hm2)
      simp only [lookupEntry, List.find?, hne]
      exact ih hn.2 hm2

/-- C3. For every store, user, year and month, the grouped per-date entries
of `getUserMonthlyStats` have weights summing to the top-level `totalWeight`,
each entry's `recordCount` (and running weight) counts exactly the fetched
month records of that entry's date, and the entries are emitted sorted
ascending by date string. -/
theorem c3_monthly_grouping (db : DB) (uid year month : Nat) :
    ((getUserMonthlyStats db uid year month).dailyStats.map (fun e => e.weight)).sum
        = (getUserMonthlyStats db uid year month).totalWeight ∧
    (∀ e ∈ (getUserMonthlyStats db uid year month).dailyStats,
      e.recordCount = ((getUserWeightRecords db uid (some (monthRange year month).1)
          (some (monthRange year month).2)).filter (fun r => r.date == e.date)).length ∧
      e.weight = (((getUserWeightRecords db uid (some (monthRange year month).1)
          (some (monthRange year month).2)).filter (fun r => r.date == e.date)).map
            (fun r => r.weight)).sum) ∧
    List.Sorted EntryOrder (getUserMonthlyStats db uid year month).dailyStats := by
  set rs := getUserWeightRecords db uid (some (monthRange year month).1)
    (some (monthRange year month).2) with hrs
  have hds : (getUserMonthlyStats db uid year month).dailyStats
      = List.insertionSort EntryOrder (groupDaily rs) := rfl
  have htw : (getUserMonthlyStats db uid year month).totalWeight
      = rs.foldl (fun s r => s + r.weight) 0 := rfl
  have hperm : (List.insertionSort EntryOrder (groupDaily rs)).Perm (groupDaily rs) :=
    List.perm_insertionSort EntryOrder _
  refine ⟨?_, ?_, ?_⟩
  · rw [hds, htw, foldl_add_weight, zero_add]
    calc ((List.insertionSort EntryOrder (groupDaily rs)).map (fun e => e.weight)).sum
        = ((groupDaily rs).map (fun e => e.weight)).sum :=
          List.Perm.sum_eq (hperm.map (fun e => e.weight))
      _ = (rs.map (fun r => r.weight)).sum := by
          simpa using foldl_group_weight_sum rs []
  · intro e he
    rw [hds] at he
    have he2 : e ∈ groupDaily rs := hperm.mem_iff.mp he
    have hlook : lookupEntry (groupDaily rs) e.date = some e :=
      lookup_of_mem_nodup _ e (nodup_dates_groupDaily rs) he2
    have hchar := foldl_group_lookup_none rs e.date [] rfl
    rw [show rs.foldl (fun a r => groupStep r a) [] = groupDaily rs from rfl,
      hlook] at hchar
    by_cases hz : (rs.filter (fun r => r.date == e.date)).length = 0
    · rw [if_pos hz] at hchar
      exact absurd hchar (by simp)
    · rw [if_neg hz] at hchar
      have heq := Option.some_inj.mp hchar
      exact ⟨congrArg DailyStatEntry.recordCount heq,
        congrArg DailyStatEntry.weight heq⟩
  · rw [hds]
    exact List.sorted_insertionSort EntryOrder _

end WeightTrack
